import Mathlib

/-!
Verification of the GPX processing utility (gpx_to_csv_app.py).

The file gives a shallow embedding of the pure core of the application:
the geodesic helpers (haversine, calculate_bearing, get_direction), the
track flattener (convert_gpx_to_rows), the distance decimator
(filter_rows), the CSV codec (write_csv and the splitlines/DictReader
decode path of tab 2), the frame-index computation and extraction loop of
tab 4, and the DMS/EXIF helpers (decimal_to_dms, create_gps_exif).

Numbers are embedded exactly: machine floats are modelled by ℝ for the
transcendental geodesic code and by ℚ for the arithmetic-only paths;
Python int() is truncation toward zero; Python // is floor division;
Python % with a positive modulus agrees with Int.emod.  Fallible code
(IndexError on an empty sequence, the per-point failures of the
extraction loop) is modelled with Option and an explicit result type.
The decimator and the pipeline are parametrised by the numeric type and
the geodesic functions so that the structural theorems hold for the real
instantiation while concrete witnesses can be evaluated.
-/

/-- Constant from the source: threshold in feet. -/
def THRESHOLD_FT : ℝ := 13

/-- Constant from the source: `THRESHOLD_M = THRESHOLD_FT * 0.3048`. -/
def THRESHOLD_M : ℝ := THRESHOLD_FT * 0.3048

/-- Constant from the source: sentinel frame id. -/
def DEFAULT_FRAME_ID : ℤ := -2147483648

/-- Python `int()` applied to a (here exact) real value: truncation toward
zero, i.e. floor for nonnegative arguments and `-⌊-q⌋` for negative ones. -/
def truncTowardZero (q : ℚ) : ℤ := if 0 ≤ q then ⌊q⌋ else -⌊-q⌋

/-- Python `math.radians`. -/
noncomputable def radians (x : ℝ) : ℝ := x * Real.pi / 180

/-- Python `math.degrees`. -/
noncomputable def degreesOf (x : ℝ) : ℝ := x * 180 / Real.pi

/-- Python `math.atan2 y x` (first argument is the ordinate). -/
noncomputable def atan2 (y x : ℝ) : ℝ :=
  if 0 < x then Real.arctan (y / x)
  else if x < 0 then
    (if 0 ≤ y then Real.arctan (y / x) + Real.pi else Real.arctan (y / x) - Real.pi)
  else (if 0 < y then Real.pi / 2 else if y < 0 then -(Real.pi / 2) else 0)

/-- Python `x % y` on floats for positive `y` (used as `(deg + 360) % 360`). -/
noncomputable def fmod (x y : ℝ) : ℝ := x - y * ⌊x / y⌋

/-- The source's `haversine` great-circle distance in meters. -/
noncomputable def haversine (lat1 lon1 lat2 lon2 : ℝ) : ℝ :=
  let R : ℝ := 6371000
  let phi1 := radians lat1
  let phi2 := radians lat2
  let d_phi := radians (lat2 - lat1)
  let d_lambda := radians (lon2 - lon1)
  let a := Real.sin (d_phi / 2) ^ 2 +
    Real.cos phi1 * Real.cos phi2 * Real.sin (d_lambda / 2) ^ 2
  let c := 2 * atan2 (Real.sqrt a) (Real.sqrt (1 - a))
  R * c

/-- The source's `calculate_bearing`, normalised into [0, 360). -/
noncomputable def calculate_bearing (lat1 lon1 lat2 lon2 : ℝ) : ℝ :=
  let dLon := radians (lon2 - lon1)
  let lat1r := radians lat1
  let lat2r := radians lat2
  let x := Real.sin dLon * Real.cos lat2r
  let y := Real.cos lat1r * Real.sin lat2r -
    Real.sin lat1r * Real.cos lat2r * Real.cos dLon
  let bearing := atan2 x y
  fmod (degreesOf bearing + 360) 360

/-- The compass labels of `get_direction`, clockwise from north. -/
def directions : List String := ["N", "NE", "E", "SE", "S", "SW", "W", "NW"]

/-- Bucket index of `get_direction`: `int((bearing + 22.5) // 45) % 8`.
Python `//` on floats is the floor, `int` of an integral float is exact, and
`%` with the positive modulus 8 agrees with `Int.emod`. -/
def directionIndex {α : Type} [LinearOrderedField α] [FloorRing α] (bearing : α) : ℤ :=
  ⌊(bearing + 22.5) / 45⌋ % 8

/-- The source's `get_direction`: index into `directions`.  The default of
`List.getD` is never reached because the index always lies in [0, 8). -/
def get_direction {α : Type} [LinearOrderedField α] [FloorRing α] (bearing : α) : String :=
  directions.getD (directionIndex bearing).toNat ("")

/-- A raw row as produced by `convert_gpx_to_rows`: the four fields
`trkpt_id, frame_latitude, frame_longitude, frame_time`. -/
structure Row (α : Type) where
  trkpt_id : ℕ
  frame_latitude : α
  frame_longitude : α
  frame_time : String
deriving DecidableEq

/-- A filtered row: the original row (`{**point, ...}` keeps every original
field) extended with exactly the three fields `frame_id`, `direction` and
`cardinal_direction`. -/
structure FilteredRow (α : Type) extends Row α where
  frame_id : ℤ
  direction : String
  cardinal_direction : String
deriving DecidableEq

/-- One point of a hierarchical track document. -/
structure TrkPt (α : Type) where
  latitude : α
  longitude : α
  time : Option String
deriving DecidableEq

/-- A track document: tracks, then segments, then points. -/
abbrev Gpx (α : Type) := List (List (List (TrkPt α)))

/-- The source's `convert_gpx_to_rows`: flatten the document in traversal
order, assigning `trkpt_id` as a running counter from 0, and rendering a
missing timestamp as the empty string. -/
def convert_gpx_to_rows {α : Type} (gpx : Gpx α) : List (Row α) :=
  ((gpx.map List.flatten).flatten.enum).map
    (fun ip => ⟨ip.1, ip.2.latitude, ip.2.longitude, ip.2.time.getD ("")⟩)

/-- Python `direction[0] if direction else ''`. -/
def firstCharStr (s : String) : String :=
  match s.data with
  | [] => ""
  | c :: _ => String.singleton c

/-- The loop of `filter_rows` over `rows[1:]`, carrying the coordinates of
the last retained point.  A candidate at distance at least `th` from the
last retained point is retained, annotated with bearing data computed from
the last retained point, and becomes the new base; otherwise it is
discarded and the base is unchanged. -/
def filterLoop {α : Type} [LinearOrder α] (th : α) (dist brg : α → α → α → α → α)
    (dir : α → String) (lastLat lastLon : α) : List (Row α) → List (FilteredRow α)
  | [] => []
  | point :: rest =>
    let lat := point.frame_latitude
    let lon := point.frame_longitude
    let d := dist lastLat lastLon lat lon
    if th ≤ d then
      let bearing := brg lastLat lastLon lat lon
      let direction := dir bearing
      let cardinal := firstCharStr direction
      ⟨point, DEFAULT_FRAME_ID, direction, cardinal⟩ ::
        filterLoop th dist brg dir lat lon rest
    else filterLoop th dist brg dir lastLat lastLon rest

/-- The source's `filter_rows`, parametrised by the threshold and the
geodesic functions.  `rows[0]` on an empty list raises (IndexError, the
spec's EmptySequenceError), modelled by `none`.  The first row is always
retained with empty direction and cardinal. -/
def filter_rows {α : Type} [LinearOrder α] (th : α) (dist brg : α → α → α → α → α)
    (dir : α → String) : List (Row α) → Option (List (FilteredRow α))
  | [] => none
  | first :: rest =>
    some (⟨first, DEFAULT_FRAME_ID, "", ""⟩ ::
      filterLoop th dist brg dir first.frame_latitude first.frame_longitude rest)

/-- `filter_rows` as the application instantiates it: real coordinates,
haversine distance against `THRESHOLD_M`, bearing and compass annotation. -/
noncomputable def filter_rowsApp : List (Row ℝ) → Option (List (FilteredRow ℝ)) :=
  filter_rows THRESHOLD_M haversine calculate_bearing (get_direction : ℝ → String)

/-- The frame-index computation of tab 4:
`frame_no = int(time_diff * fps)` with `time_diff = (t - t0).total_seconds()`. -/
def frame_no (fps t0 t : ℚ) : ℤ := truncTowardZero ((t - t0) * fps)

/-- Outcome of one iteration of the tab-4 extraction loop for one point. -/
inductive FrameResult where
  | extracted : ℤ → FrameResult
  | seekOutOfRange : ℤ → FrameResult
deriving DecidableEq

/-- The per-point extraction loop of tab 4.  The video decoder collaborator
is modelled from the spec: a seek-and-read at frame index `i` succeeds iff
`0 ≤ i < frame_count`; a failed read is logged and the loop continues with
the next point. -/
def extract_frames (frame_count : ℤ) (fps t0 : ℚ) : List ℚ → List FrameResult
  | [] => []
  | t :: rest =>
    (if 0 ≤ frame_no fps t0 t ∧ frame_no fps t0 t < frame_count then
      FrameResult.extracted (frame_no fps t0 t)
    else FrameResult.seekOutOfRange (frame_no fps t0 t)) ::
      extract_frames frame_count fps t0 rest

/-- The source's `decimal_to_dms`: degrees/minutes and seconds scaled by
100, each a (numerator, denominator) pair. -/
def decimal_to_dms (decimal : ℚ) : List (ℤ × ℤ) :=
  let degrees : ℤ := truncTowardZero |decimal|
  let minutes : ℤ := truncTowardZero ((|decimal| - degrees) * 60)
  let seconds : ℚ := (|decimal| - (degrees : ℚ) - (minutes : ℚ) / 60) * 3600
  [(degrees, 1), (minutes, 1), (truncTowardZero (seconds * 100), 100)]

/-- The GPS IFD assembled by `create_gps_exif`. -/
structure GpsExif where
  latRef : Char
  lat : List (ℤ × ℤ)
  lonRef : Char
  lon : List (ℤ × ℤ)
deriving DecidableEq

/-- The source's `create_gps_exif`: hemisphere characters from the signs,
magnitudes from `decimal_to_dms`. -/
def create_gps_exif (lat lon : ℚ) : GpsExif :=
  { latRef := if 0 ≤ lat then 'N' else 'S'
    lat := decimal_to_dms lat
    lonRef := if 0 ≤ lon then 'E' else 'W'
    lon := decimal_to_dms lon }

/-- The line terminator written by `csv.writer` (default dialect). -/
def CRLF : List Char := ['\r', '\n']

/-- One CSV record: already-rendered fields joined by commas.  This is what
`csv.DictWriter` emits for a row none of whose fields needs quoting. -/
def commaJoin : List (List Char) → List Char
  | [] => []
  | [f] => f
  | f :: rest => f ++ ',' :: commaJoin rest

/-- The source's `write_csv`: header row from the field names, then one
record per data row, each terminated by CRLF.  Text is modelled as a
character sequence; rows carry their fields already rendered to text, in
field-name order, as `csv.DictWriter` renders them. -/
def write_csv (data : List (List (List Char))) (fieldnames : List (List Char)) : List Char :=
  (commaJoin fieldnames ++ CRLF) ++ (data.map (fun r => commaJoin r ++ CRLF)).flatten

/-- Splitting one line at a separator character, as `csv.reader` parses a
record containing no quote character. -/
def splitOnChar (sep : Char) : List Char → List (List Char)
  | [] => [[]]
  | c :: rest =>
    if c = sep then [] :: splitOnChar sep rest
    else
      match splitOnChar sep rest with
      | [] => [[c]]
      | h :: t => (c :: h) :: t

/-- After a carriage return, one immediately following line feed belongs to
the same line boundary and is consumed with it. -/
def dropLf (cs : List Char) : List Char :=
  match cs with
  | [] => []
  | c :: rest => if c = '\n' then rest else c :: rest

theorem dropLf_length_le (cs : List Char) : (dropLf cs).length ≤ cs.length := by
  unfold dropLf
  match cs with
  | [] => exact Nat.le_refl 0
  | c :: rest =>
    by_cases h : c = '\n' <;> simp [h]

/-- Worker for `splitlines`, carrying the current line reversed. -/
def splitlinesAux (acc : List Char) : List Char → List (List Char)
  | [] => if acc.isEmpty then [] else [acc.reverse]
  | c :: rest =>
    if c = '\r' then acc.reverse :: splitlinesAux [] (dropLf rest)
    else if c = '\n' then acc.reverse :: splitlinesAux [] rest
    else splitlinesAux (c :: acc) rest
termination_by cs => cs.length
decreasing_by
  all_goals simp only [List.length_cons]
  all_goals first
  | exact Nat.lt_succ_of_le (dropLf_length_le _)
  | exact Nat.lt_succ_of_le (Nat.le_refl _)

/-- Python `str.splitlines` restricted to the terminators `\r`, `\n` and
`\r\n` — the only line boundaries occurring in text whose fields satisfy
`cleanField`. -/
def splitlines (cs : List Char) : List (List Char) := splitlinesAux [] cs

/-- The decode path of tab 2: `splitlines` on the text, the first line as
the header, every further line split into fields (`csv.DictReader`).
An input with no lines leaves the reader without field names: `none`. -/
def read_csv_rows (cs : List Char) : Option (List (List Char) × List (List (List Char))) :=
  match splitlines cs with
  | [] => none
  | header :: rest => some (splitOnChar ',' header, rest.map (splitOnChar ','))

/-- The annotated CSV schema of tabs 2 and 3. -/
def annotated_fieldnames : List (List Char) :=
  ["trkpt_id".data, "frame_latitude".data, "frame_longitude".data, "frame_time".data,
    "frame_id".data, "direction".data, "cardinal_direction".data]

/-- Characters of Python's line boundaries beyond CR and LF: a field
holding one of these would be passed unquoted by `csv.writer` but broken
apart by `str.splitlines`. -/
def lineBoundaryChars : List Char :=
  ['\x0b', '\x0c', '\x1c', '\x1d', '\x1e', '\x85', '\u2028', '\u2029']

/-- A rendered field that `csv.DictWriter` (QUOTE_MINIMAL) writes verbatim
and whose line never breaks: no delimiter, no quote character, no line
boundary.  Every field of an annotated point (decimal numerals, ISO-8601
timestamps, compass labels) satisfies this. -/
def cleanField (f : List Char) : Prop :=
  ∀ c ∈ f, c ≠ ',' ∧ c ≠ '"' ∧ c ≠ '\r' ∧ c ≠ '\n' ∧ c ∉ lineBoundaryChars

instance (f : List Char) : Decidable (cleanField f) := by
  unfold cleanField; infer_instance

/-- The one-step pipeline of tab 3: convert the document to rows, decimate,
then render to annotated CSV.  The render function stands for the
stringification `csv.DictWriter` applies to each field.  A failure of
`filter_rows` (empty sequence) propagates: no CSV text is produced. -/
def one_step_pipeline {α : Type} [LinearOrder α] (th : α) (dist brg : α → α → α → α → α)
    (dir : α → String) (render : FilteredRow α → List (List Char)) (doc : Gpx α) :
    Option (List Char) :=
  (filter_rows th dist brg dir (convert_gpx_to_rows doc)).map
    (fun filtered => write_csv (filtered.map render) annotated_fieldnames)

theorem filterLoop_head {α : Type} [LinearOrder α] (th : α) (dist brg : α → α → α → α → α)
    (dir : α → String) :
    ∀ (rest : List (Row α)) (lastLat lastLon : α) (b : FilteredRow α)
      (bs : List (FilteredRow α)),
      filterLoop th dist brg dir lastLat lastLon rest = b :: bs →
      th ≤ dist lastLat lastLon b.frame_latitude b.frame_longitude := by
  intro rest
  induction rest with
  | nil => intro la lo b bs h; simp [filterLoop] at h
  | cons point rest ih =>
    intro la lo b bs h
    simp only [filterLoop] at h
    split at h
    case isTrue hc =>
      injection h with hb hbs
      subst hb
      simpa using hc
    case isFalse hc => exact ih la lo b bs h

theorem filterLoop_chain {α : Type} [LinearOrder α] (th : α) (dist brg : α → α → α → α → α)
    (dir : α → String) :
    ∀ (rest : List (Row α)) (lastLat lastLon : α),
      List.Chain'
        (fun a b =>
          th ≤ dist a.frame_latitude a.frame_longitude b.frame_latitude b.frame_longitude)
        (filterLoop th dist brg dir lastLat lastLon rest) := by
  intro rest
  induction rest with
  | nil => intro la lo; simp [filterLoop]
  | cons point rest ih =>
    intro la lo
    simp only [filterLoop]
    split
    case isTrue hc =>
      rw [List.chain'_cons']
      refine ⟨?_, ih _ _⟩
      intro y hy
      cases ht : filterLoop th dist brg dir point.frame_latitude point.frame_longitude rest with
      | nil => rw [ht] at hy; simp at hy
      | cons b bs =>
        rw [ht] at hy
        simp at hy
        subst hy
        simpa using filterLoop_head th dist brg dir rest _ _ b bs ht
    case isFalse hc => exact ih la lo

theorem filterLoop_sublist {α : Type} [LinearOrder α] (th : α) (dist brg : α → α → α → α → α)
    (dir : α → String) :
    ∀ (rest : List (Row α)) (lastLat lastLon : α),
      List.Sublist ((filterLoop th dist brg dir lastLat lastLon rest).map FilteredRow.toRow)
        rest := by
  intro rest
  induction rest with
  | nil => intro la lo; simp [filterLoop]
  | cons point rest ih =>
    intro la lo
    simp only [filterLoop]
    split
    case isTrue hc => simpa using List.Sublist.cons₂ point (ih _ _)
    case isFalse hc => exact List.Sublist.cons point (ih _ _)

theorem filterLoop_frame_id {α : Type} [LinearOrder α] (th : α) (dist brg : α → α → α → α → α)
    (dir : α → String) :
    ∀ (rest : List (Row α)) (lastLat lastLon : α) (f : FilteredRow α),
      f ∈ filterLoop th dist brg dir lastLat lastLon rest → f.frame_id = DEFAULT_FRAME_ID := by
  intro rest
  induction rest with
  | nil => intro la lo f h; simp [filterLoop] at h
  | cons point rest ih =>
    intro la lo f h
    simp only [filterLoop] at h
    split at h
    case isTrue hc =>
      rcases List.mem_cons.mp h with h1 | h2
      · subst h1; rfl
      · exact ih _ _ f h2
    case isFalse hc => exact ih _ _ f h

/-- C1: on every run of the decimator as the application instantiates it,
any two consecutive output rows lie at least `THRESHOLD_M = 13 * 0.3048`
meters apart by the haversine distance; the chain relation holds between
each retained row and the *next retained* row because the loop re-bases
the comparison on the last retained point, never on a discarded one. -/
theorem filter_rows_min_spacing (rows : List (Row ℝ)) (out : List (FilteredRow ℝ))
    (h : filter_rowsApp rows = some out) :
    THRESHOLD_M = 13 * 0.3048 ∧
    List.Chain'
      (fun a b =>
        THRESHOLD_M ≤ haversine a.frame_latitude a.frame_longitude
          b.frame_latitude b.frame_longitude) out := by
  refine ⟨rfl, ?_⟩
  cases rows with
  | nil => simp [filter_rowsApp, filter_rows] at h
  | cons first rest =>
    simp only [filter_rowsApp, filter_rows, Option.some.injEq] at h
    subst h
    rw [List.chain'_cons']
    constructor
    · intro y hy
      cases ht : filterLoop THRESHOLD_M haversine calculate_bearing
          (get_direction : ℝ → String) first.frame_latitude first.frame_longitude rest with
      | nil => rw [ht] at hy; simp at hy
      | cons b bs =>
        rw [ht] at hy
        simp at hy
        subst hy
        simpa using filterLoop_head THRESHOLD_M haversine calculate_bearing
          (get_direction : ℝ → String) rest _ _ b bs ht
    · exact filterLoop_chain THRESHOLD_M haversine calculate_bearing
        (get_direction : ℝ → String) rest _ _

theorem filter_rows_min_spacing_witness :
    filter_rowsApp [⟨7, 0, 0, ""⟩] =
      some [⟨⟨7, 0, 0, ""⟩, DEFAULT_FRAME_ID, "", ""⟩] ∧
    List.Chain'
      (fun a b =>
        THRESHOLD_M ≤ haversine a.frame_latitude a.frame_longitude
          b.frame_latitude b.frame_longitude)
      ([⟨⟨7, 0, 0, ""⟩, DEFAULT_FRAME_ID, "", ""⟩] : List (FilteredRow ℝ)) :=
  ⟨by simp [filter_rowsApp, filter_rows, filterLoop],
    (filter_rows_min_spacing [⟨7, 0, 0, ""⟩] [⟨⟨7, 0, 0, ""⟩, DEFAULT_FRAME_ID, "", ""⟩]
      (by simp [filter_rowsApp, filter_rows, filterLoop])).2⟩

/-- C5: every output row of the decimator is an input row with its four
original fields unchanged (the underlying rows form an order-preserving
sublist of the input), extended with the three annotation fields, and
`frame_id` is the sentinel `-2147483648` on every retained row. -/
theorem filter_rows_preserves_fields {α : Type} [LinearOrder α] (th : α)
    (dist brg : α → α → α → α → α) (dir : α → String)
    (rows : List (Row α)) (out : List (FilteredRow α))
    (h : filter_rows th dist brg dir rows = some out) :
    List.Sublist (out.map FilteredRow.toRow) rows ∧
    (∀ f ∈ out, f.frame_id = DEFAULT_FRAME_ID) ∧ DEFAULT_FRAME_ID = -2147483648 := by
  cases rows with
  | nil => simp [filter_rows] at h
  | cons first rest =>
    simp only [filter_rows, Option.some.injEq] at h
    subst h
    refine ⟨?_, ?_, rfl⟩
    · simpa using List.Sublist.cons₂ first
        (filterLoop_sublist th dist brg dir rest first.frame_latitude first.frame_longitude)
    · intro f hf
      rcases List.mem_cons.mp hf with h1 | h2
      · subst h1; rfl
      · exact filterLoop_frame_id th dist brg dir rest _ _ f h2

theorem filter_rows_preserves_fields_witness :
    filter_rows (1 : ℤ) (fun a _ c _ => c - a) (fun _ _ _ _ => 0) (fun _ => "N")
        [⟨0, 0, 0, ""⟩, ⟨1, 5, 0, ""⟩, ⟨2, 5, 0, ""⟩] =
      some [⟨⟨0, 0, 0, ""⟩, DEFAULT_FRAME_ID, "", ""⟩,
        ⟨⟨1, 5, 0, ""⟩, DEFAULT_FRAME_ID, "N", "N"⟩] ∧
    (List.Sublist
        (([⟨⟨0, 0, 0, ""⟩, DEFAULT_FRAME_ID, "", ""⟩,
          ⟨⟨1, 5, 0, ""⟩, DEFAULT_FRAME_ID, "N", "N"⟩] :
            List (FilteredRow ℤ)).map FilteredRow.toRow)
        [⟨0, 0, 0, ""⟩, ⟨1, 5, 0, ""⟩, ⟨2, 5, 0, ""⟩] ∧
      (∀ f ∈ ([⟨⟨0, 0, 0, ""⟩, DEFAULT_FRAME_ID, "", ""⟩,
          ⟨⟨1, 5, 0, ""⟩, DEFAULT_FRAME_ID, "N", "N"⟩] : List (FilteredRow ℤ)),
        f.frame_id = DEFAULT_FRAME_ID) ∧
      DEFAULT_FRAME_ID = -2147483648) :=
  ⟨by decide,
    filter_rows_preserves_fields 1 (fun a _ c _ => c - a) (fun _ _ _ _ => 0) (fun _ => "N")
      [⟨0, 0, 0, ""⟩, ⟨1, 5, 0, ""⟩, ⟨2, 5, 0, ""⟩]
      [⟨⟨0, 0, 0, ""⟩, DEFAULT_FRAME_ID, "", ""⟩,
        ⟨⟨1, 5, 0, ""⟩, DEFAULT_FRAME_ID, "N", "N"⟩] (by decide)⟩

/-- C7: on every non-empty input the first input row is retained as the
first output row, annotated with empty direction and empty cardinal. -/
theorem filter_rows_first_point {α : Type} [LinearOrder α] (th : α)
    (dist brg : α → α → α → α → α) (dir : α → String)
    (first : Row α) (rest : List (Row α)) (out : List (FilteredRow α))
    (h : filter_rows th dist brg dir (first :: rest) = some out) :
    out.head? = some ⟨first, DEFAULT_FRAME_ID, "", ""⟩ := by
  simp only [filter_rows, Option.some.injEq] at h
  subst h
  rfl

theorem filter_rows_first_point_witness :
    filter_rows (0 : ℤ) (fun _ _ _ _ => 0) (fun _ _ _ _ => 0) (fun _ => "")
        [⟨0, 1, 2, ""⟩] = some [⟨⟨0, 1, 2, ""⟩, DEFAULT_FRAME_ID, "", ""⟩] ∧
    ([⟨⟨0, 1, 2, ""⟩, DEFAULT_FRAME_ID, "", ""⟩] : List (FilteredRow ℤ)).head? =
      some ⟨⟨0, 1, 2, ""⟩, DEFAULT_FRAME_ID, "", ""⟩ :=
  ⟨by decide,
    filter_rows_first_point 0 (fun _ _ _ _ => 0) (fun _ _ _ _ => 0) (fun _ => "")
      ⟨0, 1, 2, ""⟩ [] [⟨⟨0, 1, 2, ""⟩, DEFAULT_FRAME_ID, "", ""⟩] (by decide)⟩

/-- C2: the decimator fails on an empty row sequence (the spec's
EmptySequenceError, the source's IndexError at `rows[0]`, modelled by
`none`), and the one-step pipeline on a track document containing no
points fails the same way before any CSV text is produced. -/
theorem filter_rows_empty_error {α : Type} [LinearOrder α] (th : α)
    (dist brg : α → α → α → α → α) (dir : α → String)
    (render : FilteredRow α → List (List Char)) (doc : Gpx α)
    (hdoc : ∀ trk ∈ doc, ∀ seg ∈ trk, seg = []) :
    filter_rows th dist brg dir [] = none ∧
    one_step_pipeline th dist brg dir render doc = none := by
  have hconv : convert_gpx_to_rows doc = [] := by
    have hflat : (doc.map List.flatten).flatten = ([] : List (TrkPt α)) := by
      rw [List.flatten_eq_nil_iff]
      intro l hl
      rcases List.mem_map.mp hl with ⟨trk, htrk, rfl⟩
      rw [List.flatten_eq_nil_iff]
      exact hdoc trk htrk
    rw [convert_gpx_to_rows, hflat]
    rfl
  refine ⟨rfl, ?_⟩
  rw [one_step_pipeline, hconv]
  rfl

theorem filter_rows_empty_error_witness :
    (∀ trk ∈ ([[]] : Gpx ℤ), ∀ seg ∈ trk, seg = []) ∧
    (filter_rows (0 : ℤ) (fun _ _ _ _ => 0) (fun _ _ _ _ => 0) (fun _ => "") [] = none ∧
      one_step_pipeline (0 : ℤ) (fun _ _ _ _ => 0) (fun _ _ _ _ => 0) (fun _ => "")
        (fun _ => []) [[]] = none) :=
  ⟨by decide,
    filter_rows_empty_error 0 (fun _ _ _ _ => 0) (fun _ _ _ _ => 0) (fun _ => "")
      (fun _ => []) [[]] (by decide)⟩

/-- C3 counterexample: at a point a quarter second before the reference and
10 frames per second the code computes `int(-2.5) = -2`, while the floor of
the elapsed-times-fps product is `-3`, so the computed frame index is not
the floor. -/
theorem frame_no_floor_counterexample :
    frame_no 10 0 (-(1/4)) = -2 ∧ (⌊((-(1/4) : ℚ) - 0) * 10⌋ : ℤ) = -3 ∧
    frame_no 10 0 (-(1/4)) ≠ ⌊((-(1/4) : ℚ) - 0) * 10⌋ := by
  have h1 : frame_no 10 0 (-(1/4)) = -2 := by
    rw [frame_no, truncTowardZero, if_neg (by norm_num)]
    norm_num
  have h2 : (⌊((-(1/4) : ℚ) - 0) * 10⌋ : ℤ) = -3 := by norm_num
  refine ⟨h1, h2, ?_⟩
  rw [h1, h2]
  decide

/-- C3 (amended): the computed frame index truncates the product of elapsed
seconds and fps toward zero, which agrees with the floor exactly when that
product is nonnegative; at `t0, t0+1s, t0+2.5s` with fps 10 the indices are
0, 10 and 25. -/
theorem frame_no_trunc :
    (∀ fps t0 t : ℚ, 0 ≤ (t - t0) * fps → frame_no fps t0 t = ⌊(t - t0) * fps⌋) ∧
    [frame_no 10 0 0, frame_no 10 0 1, frame_no 10 0 (5/2)] = [0, 10, 25] := by
  constructor
  · intro fps t0 t h
    rw [frame_no, truncTowardZero, if_pos h]
  · have e0 : frame_no 10 0 0 = 0 := by
      rw [frame_no, truncTowardZero, if_pos (by norm_num)]
      norm_num
    have e1 : frame_no 10 0 1 = 10 := by
      rw [frame_no, truncTowardZero, if_pos (by norm_num)]
      norm_num
    have e2 : frame_no 10 0 (5/2) = 25 := by
      rw [frame_no, truncTowardZero, if_pos (by norm_num)]
      norm_num
    rw [e0, e1, e2]

theorem frame_no_trunc_witness :
    0 ≤ ((1 : ℚ) - 0) * 10 ∧ frame_no 10 0 1 = ⌊((1 : ℚ) - 0) * 10⌋ :=
  ⟨by norm_num, frame_no_trunc.1 10 0 1 (by norm_num)⟩

/-- C4: a point whose computed frame index is negative or at least the
stream's frame count yields a seek-out-of-range result for that point only,
and the loop continues with the remaining points; every input point yields
exactly one result, and the spec's example (index −5 from a timestamp half a
second before the reference at fps 10) is skipped while the next point is
extracted. -/
theorem extract_frames_partial_failure (N : ℤ) (fps t0 t : ℚ) (rest : List ℚ)
    (h : frame_no fps t0 t < 0 ∨ N ≤ frame_no fps t0 t) :
    extract_frames N fps t0 (t :: rest) =
      FrameResult.seekOutOfRange (frame_no fps t0 t) :: extract_frames N fps t0 rest ∧
    (∀ times : List ℚ, (extract_frames N fps t0 times).length = times.length) ∧
    extract_frames 100 10 0 [-(1/2), 0] =
      [FrameResult.seekOutOfRange (-5), FrameResult.extracted 0] := by
  refine ⟨?_, ?_, ?_⟩
  · have hcond : ¬(0 ≤ frame_no fps t0 t ∧ frame_no fps t0 t < N) := by
      rcases h with h | h <;> omega
    simp only [extract_frames]
    rw [if_neg hcond]
  · intro times
    induction times with
    | nil => rfl
    | cons t2 rest2 ih => simp only [extract_frames, List.length_cons, ih]
  · have hm5 : frame_no 10 0 (-(1/2)) = -5 := by
      rw [frame_no, truncTowardZero, if_neg (by norm_num)]
      norm_num
    have h0 : frame_no 10 0 0 = 0 := by
      rw [frame_no, truncTowardZero, if_pos (by norm_num)]
      norm_num
    simp only [extract_frames, hm5, h0]
    rw [if_neg (by decide), if_pos (by decide)]

theorem extract_frames_partial_failure_witness :
    (frame_no 10 0 (-(1/2)) < 0 ∨ (100 : ℤ) ≤ frame_no 10 0 (-(1/2))) ∧
    (extract_frames 100 10 0 (-(1/2) :: [0]) =
        FrameResult.seekOutOfRange (frame_no 10 0 (-(1/2))) ::
          extract_frames 100 10 0 [0] ∧
      (∀ times : List ℚ, (extract_frames 100 10 0 times).length = times.length) ∧
      extract_frames 100 10 0 [-(1/2), 0] =
        [FrameResult.seekOutOfRange (-5), FrameResult.extracted 0]) := by
  have h : frame_no 10 0 (-(1/2)) < 0 ∨ (100 : ℤ) ≤ frame_no 10 0 (-(1/2)) := by
    left
    rw [frame_no, truncTowardZero, if_neg (by norm_num)]
    norm_num
  exact ⟨h, extract_frames_partial_failure 100 10 0 (-(1/2)) [0] h⟩

theorem directionIndex_add_360 {α : Type} [LinearOrderedField α] [FloorRing α] (b : α) :
    directionIndex (b + 360) = directionIndex b := by
  unfold directionIndex
  have h : (b + 360 + 22.5) / 45 = (b + 22.5) / 45 + ((8 : ℤ) : α) := by
    push_cast
    ring
  rw [h, Int.floor_add_int]
  omega

/-- C8: the compass classification is the bucket index
`⌊(bearing + 22.5) / 45⌋ % 8` into the clockwise label list; it is periodic
with period 360, and the eight bearings 0, 45, ..., 315 — all in [0, 360) —
produce the eight labels in order, so every label is attained on [0, 360). -/
theorem get_direction_periodic_exhaustive :
    (∀ b : ℚ, get_direction (b + 360) = get_direction b) ∧
    [(0 : ℚ), 45, 90, 135, 180, 225, 270, 315].map get_direction = directions ∧
    List.Forall (fun b : ℚ => 0 ≤ b ∧ b < 360) [0, 45, 90, 135, 180, 225, 270, 315] := by
  refine ⟨?_, ?_, ?_⟩
  · intro b
    rw [get_direction, get_direction, directionIndex_add_360]
  · have e0 : directionIndex (0 : ℚ) = 0 % 8 := by rw [directionIndex]; norm_num
    have e1 : directionIndex (45 : ℚ) = 1 % 8 := by rw [directionIndex]; norm_num
    have e2 : directionIndex (90 : ℚ) = 2 % 8 := by rw [directionIndex]; norm_num
    have e3 : directionIndex (135 : ℚ) = 3 % 8 := by rw [directionIndex]; norm_num
    have e4 : directionIndex (180 : ℚ) = 4 % 8 := by rw [directionIndex]; norm_num
    have e5 : directionIndex (225 : ℚ) = 5 % 8 := by rw [directionIndex]; norm_num
    have e6 : directionIndex (270 : ℚ) = 6 % 8 := by rw [directionIndex]; norm_num
    have e7 : directionIndex (315 : ℚ) = 7 % 8 := by rw [directionIndex]; norm_num
    simp only [List.map_cons, List.map_nil, get_direction, e0, e1, e2, e3, e4, e5, e6, e7]
    rfl
  · simp only [List.Forall, List.forall_cons]
    norm_num

/-- C10: the compass classification is total on all real bearings: the
computed index always lies in [0, 8), so the list indexing is in bounds and
the result is one of the eight labels. -/
theorem get_direction_total (b : ℝ) :
    0 ≤ directionIndex b ∧ directionIndex b < 8 ∧ get_direction b ∈ directions := by
  have h1 : 0 ≤ directionIndex b := by
    rw [directionIndex]
    exact Int.emod_nonneg _ (by norm_num)
  have h2 : directionIndex b < 8 := by
    rw [directionIndex]
    exact Int.emod_lt_of_pos _ (by norm_num)
  have h3 : (directionIndex b).toNat < directions.length := by
    rw [show directions.length = 8 from rfl]
    omega
  refine ⟨h1, h2, ?_⟩
  rw [get_direction, List.getD_eq_getElem _ _ h3]
  exact List.getElem_mem h3

theorem splitOnChar_no_sep (sep : Char) (f : List Char) (h : ∀ c ∈ f, c ≠ sep) :
    splitOnChar sep f = [f] := by
  induction f with
  | nil => rfl
  | cons c f ih =>
    have hc : c ≠ sep := h c (List.mem_cons_self c f)
    have hrest : ∀ x ∈ f, x ≠ sep := fun x hx => h x (List.mem_cons_of_mem c hx)
    simp only [splitOnChar]
    rw [if_neg hc, ih hrest]

theorem splitOnChar_append (sep : Char) (f cs : List Char) (h : ∀ c ∈ f, c ≠ sep) :
    splitOnChar sep (f ++ sep :: cs) = f :: splitOnChar sep cs := by
  induction f with
  | nil =>
    simp only [List.nil_append, splitOnChar]
    simp
  | cons c f ih =>
    have hc : c ≠ sep := h c (List.mem_cons_self c f)
    have hrest : ∀ x ∈ f, x ≠ sep := fun x hx => h x (List.mem_cons_of_mem c hx)
    simp only [List.cons_append, splitOnChar]
    rw [if_neg hc, show f.append (sep :: cs) = f ++ sep :: cs from rfl, ih hrest]

theorem splitOnChar_commaJoin (fields : List (List Char)) (hne : fields ≠ [])
    (h : ∀ f ∈ fields, ∀ c ∈ f, c ≠ ',') :
    splitOnChar ',' (commaJoin fields) = fields := by
  induction fields with
  | nil => exact absurd rfl hne
  | cons f rest ih =>
    cases rest with
    | nil =>
      exact splitOnChar_no_sep ',' f (h f (List.mem_cons_self f []))
    | cons g rest2 =>
      have hjoin : commaJoin (f :: g :: rest2) = f ++ ',' :: commaJoin (g :: rest2) := rfl
      rw [hjoin,
        splitOnChar_append ',' f (commaJoin (g :: rest2)) (h f (List.mem_cons_self f _)),
        ih (by simp) (fun x hx => h x (List.mem_cons_of_mem f hx))]

theorem commaJoin_chars (fields : List (List Char)) (c : Char) (hc : c ∈ commaJoin fields) :
    c = ',' ∨ ∃ f ∈ fields, c ∈ f := by
  induction fields with
  | nil => simp [commaJoin] at hc
  | cons f rest ih =>
    cases rest with
    | nil =>
      right
      exact ⟨f, List.mem_cons_self f [], hc⟩
    | cons g rest2 =>
      have hjoin : commaJoin (f :: g :: rest2) = f ++ ',' :: commaJoin (g :: rest2) := rfl
      rw [hjoin] at hc
      rcases List.mem_append.mp hc with h1 | h2
      · exact Or.inr ⟨f, List.mem_cons_self f _, h1⟩
      · rcases List.mem_cons.mp h2 with rfl | h3
        · exact Or.inl rfl
        · rcases ih h3 with h4 | ⟨g2, hg2, hcg2⟩
          · exact Or.inl h4
          · exact Or.inr ⟨g2, List.mem_cons_of_mem f hg2, hcg2⟩

theorem splitlinesAux_append_line (l : List Char) :
    ∀ (acc rest : List Char), (∀ c ∈ l, c ≠ '\r' ∧ c ≠ '\n') →
      splitlinesAux acc (l ++ '\r' :: '\n' :: rest) =
        (acc.reverse ++ l) :: splitlinesAux [] rest := by
  induction l with
  | nil =>
    intro acc rest _
    simp [splitlinesAux, dropLf]
  | cons c l ih =>
    intro acc rest h
    have hc := h c (List.mem_cons_self c l)
    have hrest : ∀ x ∈ l, x ≠ '\r' ∧ x ≠ '\n' := fun x hx => h x (List.mem_cons_of_mem c hx)
    show splitlinesAux acc (c :: (l ++ '\r' :: '\n' :: rest)) = _
    simp only [splitlinesAux]
    rw [if_neg hc.1, if_neg hc.2, ih (c :: acc) rest hrest]
    simp

theorem splitlines_flatten (lines : List (List Char))
    (h : ∀ l ∈ lines, ∀ c ∈ l, c ≠ '\r' ∧ c ≠ '\n') :
    splitlines ((lines.map (fun l => l ++ CRLF)).flatten) = lines := by
  induction lines with
  | nil => simp [splitlines, splitlinesAux]
  | cons l rest ih =>
    have hl : ∀ c ∈ l, c ≠ '\r' ∧ c ≠ '\n' := h l (List.mem_cons_self l rest)
    have hrest : ∀ x ∈ rest, ∀ c ∈ x, c ≠ '\r' ∧ c ≠ '\n' :=
      fun x hx => h x (List.mem_cons_of_mem l hx)
    have hshape : ((l :: rest).map (fun y => y ++ CRLF)).flatten =
        l ++ '\r' :: '\n' :: (rest.map (fun y => y ++ CRLF)).flatten := by
      simp [CRLF]
    rw [hshape, splitlines, splitlinesAux_append_line l [] _ hl]
    simp only [List.reverse_nil, List.nil_append]
    rw [← splitlines, ih hrest]

/-- C6: encoding rendered annotated rows with `write_csv` under the
annotated field names and decoding the text with the tab-2 row reader
(`splitlines` + `csv.DictReader`) reproduces the header and exactly the
original rows — same row count and, field for field, the same rendered
values, hence the same values after numeric coercion.  The hypothesis says
the rows carry the 7 annotated fields and that each rendered field is free
of delimiter, quote and line-boundary characters, as every rendered
annotated field (decimal numerals, ISO-8601 timestamps, compass labels)
is. -/
theorem write_csv_read_roundtrip (data : List (List (List Char)))
    (h : ∀ r ∈ data, r.length = 7 ∧ ∀ f ∈ r, cleanField f) :
    read_csv_rows (write_csv data annotated_fieldnames) =
      some (annotated_fieldnames, data) := by
  have hfn_clean : ∀ f ∈ annotated_fieldnames, cleanField f := by decide
  have hw : write_csv data annotated_fieldnames =
      ((commaJoin annotated_fieldnames :: data.map commaJoin).map
        (fun l => l ++ CRLF)).flatten := by
    rw [write_csv]
    simp only [List.map_cons, List.flatten_cons, List.map_map]
    rfl
  have hclean_line : ∀ l ∈ commaJoin annotated_fieldnames :: data.map commaJoin,
      ∀ c ∈ l, c ≠ '\r' ∧ c ≠ '\n' := by
    intro l hl c hc
    rcases List.mem_cons.mp hl with rfl | hl2
    · rcases commaJoin_chars _ c hc with rfl | ⟨f, hf, hcf⟩
      · exact ⟨by decide, by decide⟩
      · rcases hfn_clean f hf c hcf with ⟨-, -, h3, h4, -⟩
        exact ⟨h3, h4⟩
    · rcases List.mem_map.mp hl2 with ⟨r, hr, rfl⟩
      rcases commaJoin_chars _ c hc with rfl | ⟨f, hf, hcf⟩
      · exact ⟨by decide, by decide⟩
      · rcases (h r hr).2 f hf c hcf with ⟨-, -, h3, h4, -⟩
        exact ⟨h3, h4⟩
  have hfn_split : splitOnChar ',' (commaJoin annotated_fieldnames) =
      annotated_fieldnames := by decide
  have hrows : (data.map commaJoin).map (splitOnChar ',') = data := by
    rw [List.map_map]
    have he : ∀ r ∈ data, (splitOnChar ',' ∘ commaJoin) r = id r := by
      intro r hr
      have hne : r ≠ [] := by
        intro hx
        have h7 := (h r hr).1
        rw [hx] at h7
        simp at h7
      exact splitOnChar_commaJoin r hne (fun f hf c hc => ((h r hr).2 f hf c hc).1)
    rw [List.map_congr_left he, List.map_id]
  rw [read_csv_rows, hw, splitlines_flatten _ hclean_line]
  show some (splitOnChar ',' (commaJoin annotated_fieldnames),
    (data.map commaJoin).map (splitOnChar ',')) = some (annotated_fieldnames, data)
  rw [hfn_split, hrows]

theorem write_csv_read_roundtrip_witness :
    (∀ r ∈ [["0".data, "45.5".data, "9.25".data, "2020-01-01T00:00:00".data,
        "-2147483648".data, "NE".data, "N".data]],
      r.length = 7 ∧ ∀ f ∈ r, cleanField f) ∧
    read_csv_rows (write_csv [["0".data, "45.5".data, "9.25".data,
        "2020-01-01T00:00:00".data, "-2147483648".data, "NE".data, "N".data]]
        annotated_fieldnames) =
      some (annotated_fieldnames,
        [["0".data, "45.5".data, "9.25".data, "2020-01-01T00:00:00".data,
          "-2147483648".data, "NE".data, "N".data]]) :=
  ⟨by decide,
    write_csv_read_roundtrip
      [["0".data, "45.5".data, "9.25".data, "2020-01-01T00:00:00".data,
        "-2147483648".data, "NE".data, "N".data]] (by decide)⟩

theorem truncTowardZero_nonneg {q : ℚ} (h : 0 ≤ q) : 0 ≤ truncTowardZero q := by
  rw [truncTowardZero, if_pos h]
  exact Int.floor_nonneg.mpr h

/-- C9: for every decimal coordinate the conversion yields the three pairs
`(degrees, 1), (minutes, 1), (seconds × 100, 100)` with nonnegative
numerators (the sign is removed by the absolute value), and the hemisphere
reference characters are decided by sign alone: N for latitude ≥ 0 else S,
E for longitude ≥ 0 else W. -/
theorem decimal_to_dms_nonneg_hemisphere (x lat lon : ℚ) :
    (∃ d m s : ℤ, decimal_to_dms x = [(d, 1), (m, 1), (s, 100)] ∧
      0 ≤ d ∧ 0 ≤ m ∧ 0 ≤ s) ∧
    (create_gps_exif lat lon).latRef = (if 0 ≤ lat then 'N' else 'S') ∧
    (create_gps_exif lat lon).lonRef = (if 0 ≤ lon then 'E' else 'W') := by
  refine ⟨?_, rfl, rfl⟩
  simp only [decimal_to_dms]
  refine ⟨_, _, _, rfl, ?_, ?_, ?_⟩
  · exact truncTowardZero_nonneg (abs_nonneg x)
  · refine truncTowardZero_nonneg (mul_nonneg ?_ (by norm_num))
    have h1 : truncTowardZero |x| = ⌊|x|⌋ := by
      rw [truncTowardZero, if_pos (abs_nonneg x)]
    rw [h1, sub_nonneg]
    exact Int.floor_le _
  · refine truncTowardZero_nonneg (mul_nonneg (mul_nonneg ?_ (by norm_num)) (by norm_num))
    have h1 : truncTowardZero |x| = ⌊|x|⌋ := by
      rw [truncTowardZero, if_pos (abs_nonneg x)]
    have hfrac : (0 : ℚ) ≤ |x| - ⌊|x|⌋ := by
      rw [sub_nonneg]
      exact Int.floor_le _
    have h2 : truncTowardZero ((|x| - ((⌊|x|⌋ : ℤ) : ℚ)) * 60) =
        ⌊(|x| - ((⌊|x|⌋ : ℤ) : ℚ)) * 60⌋ := by
      rw [truncTowardZero, if_pos (mul_nonneg hfrac (by norm_num))]
    rw [h1, h2, sub_nonneg]
    have hle : ((⌊(|x| - ((⌊|x|⌋ : ℤ) : ℚ)) * 60⌋ : ℤ) : ℚ) ≤ (|x| - ((⌊|x|⌋ : ℤ) : ℚ)) * 60 :=
      Int.floor_le _
    linarith
